import Mathlib

/-!
Verification of the Shaper2D core: the star-polygon notation parser
(`Polygon.from_str` / `Polygon.to_string` from src/main.rs), the geometry
generator (`create_shape`), and the scroll-driven scale update (`scale`).
Strings are modelled as lists of characters; `usize` as naturals below
2^64 (64-bit target); `f32` coordinates are given real-number semantics,
which the spec permits (no strict precision contract).
-/

/-- The validated polygon descriptor (struct `Polygon { n, k }`). -/
structure Polygon where
  n : Nat
  k : Nat
deriving DecidableEq, Repr

/-- One more than `usize::MAX` on the 64-bit target: `2^64`. -/
def usizeSucc : Nat := 2 ^ 64

/-- Decimal value of a character list, folding left as Rust's integer
parser does (`acc * 10 + digit`). -/
def decVal (s : List Char) : Nat :=
  s.foldl (fun acc c => acc * 10 + (c.toNat - 48)) 0

/-- Drop a single leading '+', as Rust's unsigned `from_str` does. -/
def stripPlus (s : List Char) : List Char :=
  match s with
  | [] => []
  | c :: rest => if c = '+' then rest else c :: rest

/-- Model of Rust's `str::parse::<usize>`: an optional leading '+', then a
nonempty run of ASCII digits whose value fits in `usize`; checked
arithmetic fails exactly when the final value overflows, because the
partial accumulator values are monotone. -/
def parse_usize (s : List Char) : Option Nat :=
  let t := stripPlus s
  if t ≠ [] ∧ t.all Char.isDigit = true ∧ decVal t < usizeSucc then
    some (decVal t)
  else
    none

/-- Model of Rust's `str::split('/')` collected to a `Vec`: the empty
string yields one empty section, and every slash starts a new section. -/
def splitCh : List Char → List (List Char)
  | [] => [[]]
  | c :: rest =>
    if c = '/' then
      [] :: splitCh rest
    else
      match splitCh rest with
      | [] => [[c]]
      | g :: gs => (c :: g) :: gs

/-- The scanning loop of the three-or-more-sections branch of
`Polygon::from_str`: advance `index` per character, counting slashes, and
stop (without advancing) upon reaching the second slash. -/
def slashScan : List Char → Nat → Nat → Nat
  | [], index, _ => index
  | ch :: rest, index, slashes =>
    if (if ch = '/' then slashes + 1 else slashes) = 2 then index
    else slashScan rest (index + 1) (if ch = '/' then slashes + 1 else slashes)

/-- `Polygon::from_str` from src/main.rs: split on '/', then dispatch on
the number of sections; error payloads are character positions. -/
def Polygon.from_str (s : List Char) : Except Nat Polygon :=
  match splitCh s with
  | [sec0] =>
    match parse_usize sec0 with
    | some n => Except.ok ⟨n, 1⟩
    | none => Except.error 0
  | [sec0, sec1] =>
    match parse_usize sec0 with
    | some n =>
      match parse_usize sec1 with
      | some k => Except.ok ⟨n, k⟩
      | none => Except.error (List.findIdx (fun c => c == '/') s + 1)
    | none => Except.error 0
  | _ => Except.error (slashScan s 0 0)

/-- Decimal digits of `n`, most significant first, as Rust's `format!`
renders an unsigned integer (no sign, no leading zeros except "0"). -/
def natToDigits (n : Nat) : List Char :=
  if _h : n < 10 then
    [Nat.digitChar n]
  else
    natToDigits (n / 10) ++ [Nat.digitChar (n % 10)]
decreasing_by exact Nat.div_lt_self (by omega) (by omega)

/-- `Polygon::to_string` from src/main.rs: `"n"` when `k == 1`, otherwise
`"n/k"`. -/
def Polygon.to_string (p : Polygon) : List Char :=
  if p.k = 1 then natToDigits p.n
  else natToDigits p.n ++ '/' :: natToDigits p.k

/-- A 2D vector with real-number coordinate semantics for the `f32`
vectors of the source (`glam::Vec2`). -/
@[ext]
structure Vec2 where
  x : ℝ
  y : ℝ

/-- `glam`'s `Vec2::rotate`: rotate `v` by the angle encoded in `a`
(complex multiplication `a * v`). -/
def Vec2.rotate (a v : Vec2) : Vec2 :=
  ⟨a.x * v.x - a.y * v.y, a.y * v.x + a.x * v.y⟩

/-- `glam`'s `Vec2::from_angle`: the unit vector `(cos θ, sin θ)`. -/
noncomputable def Vec2.from_angle (θ : ℝ) : Vec2 :=
  ⟨Real.cos θ, Real.sin θ⟩

/-- Componentwise scalar multiplication, the `* data.scale` of the source
(the z component stays 0 and is omitted). -/
def Vec2.scaleBy (v : Vec2) (s : ℝ) : Vec2 :=
  ⟨v.x * s, v.y * s⟩

/-- The render-ready output: one vertex position and one edge segment per
loop iteration of `create_shape`. -/
structure GeneratedShape where
  vertices : List Vec2
  edges : List (Vec2 × Vec2)

/-- The `for _ in 0..polygon.n` loop of `create_shape`: each iteration
emits the current vertex `previous * scale` and the segment from it to
`line_angle.rotate(previous) * scale`, then advances
`previous = angle.rotate(previous)`. -/
def shapeLoop (angle lineAngle : Vec2) (s : ℝ) :
    Nat → Vec2 → List Vec2 × List (Vec2 × Vec2)
  | 0, _ => ([], [])
  | m + 1, previous =>
    (previous.scaleBy s ::
       (shapeLoop angle lineAngle s m (angle.rotate previous)).1,
     (previous.scaleBy s, (lineAngle.rotate previous).scaleBy s) ::
       (shapeLoop angle lineAngle s m (angle.rotate previous)).2)

/-- `create_shape` from src/main.rs: rotation steps `TAU/n` for vertices
and `TAU*k/n` for connectors, starting from the unit vector `(1, 0)`. -/
noncomputable def create_shape (p : Polygon) (s : ℝ) : GeneratedShape :=
  let angle := Vec2.from_angle (2 * Real.pi / (p.n : ℝ))
  let lineAngle := Vec2.from_angle (2 * Real.pi * (p.k : ℝ) / (p.n : ℝ))
  let out := shapeLoop angle lineAngle s p.n ⟨1, 0⟩
  ⟨out.1, out.2⟩

/-- One mouse-wheel scroll unit (`MouseScrollUnit`). -/
inductive ScrollUnit where
  | line
  | pixel

/-- One mouse-wheel event: its unit and vertical amount. -/
structure Wheel where
  unit : ScrollUnit
  y : ℝ

/-- Normalisation of one wheel event inside the `scale` system: line
units count as-is, pixel units are multiplied by 0.01. -/
def scrollOf (e : Wheel) : ℝ :=
  match e.unit with
  | ScrollUnit.line => e.y
  | ScrollUnit.pixel => e.y * 0.01

/-- The `scale` system of src/main.rs over one tick: sum the normalised
deltas; if the sum is nonzero, multiply the stored scale by
`1.1^scroll` and emit a `Redraw` event (the boolean); otherwise leave the
scale unchanged and emit nothing. -/
noncomputable def scale (events : List Wheel) (oldScale : ℝ) : ℝ × Bool :=
  if (events.map scrollOf).sum ≠ 0 then
    (oldScale * (1.1 : ℝ) ^ (events.map scrollOf).sum, true)
  else
    (oldScale, false)

theorem digitChar_toNat {m : Nat} (h : m < 10) : (Nat.digitChar m).toNat = 48 + m := by
  revert h
  revert m
  decide

theorem digitChar_isDigit {m : Nat} (h : m < 10) : (Nat.digitChar m).isDigit = true := by
  revert h
  revert m
  decide

theorem natToDigits_ne_nil (n : Nat) : natToDigits n ≠ [] := by
  rw [natToDigits]
  split
  · simp
  · simp

theorem natToDigits_all_digit (n : Nat) : (natToDigits n).all Char.isDigit = true := by
  induction n using Nat.strong_induction_on with
  | _ n ih =>
    rw [natToDigits]
    split
    · next h =>
      simp [List.all_cons, digitChar_isDigit h]
    · next h =>
      rw [List.all_append]
      have h10 : n / 10 < n := Nat.div_lt_self (by omega) (by omega)
      simp [ih _ h10, digitChar_isDigit (Nat.mod_lt n (by omega))]

theorem decVal_append_digit (a : List Char) (c : Char) :
    decVal (a ++ [c]) = decVal a * 10 + (c.toNat - 48) := by
  simp [decVal, List.foldl_append]

theorem decVal_natToDigits (n : Nat) : decVal (natToDigits n) = n := by
  induction n using Nat.strong_induction_on with
  | _ n ih =>
    rw [natToDigits]
    split
    · next h =>
      simp [decVal, digitChar_toNat h]
    · next h =>
      rw [decVal_append_digit]
      have h10 : n / 10 < n := Nat.div_lt_self (by omega) (by omega)
      rw [ih _ h10, digitChar_toNat (Nat.mod_lt n (by omega))]
      omega

theorem stripPlus_of_all_digit {s : List Char} (h : s.all Char.isDigit = true) :
    stripPlus s = s := by
  match s with
  | [] => rfl
  | c :: rest =>
    rw [List.all_cons, Bool.and_eq_true] at h
    rw [stripPlus, if_neg]
    intro hc
    rw [hc] at h
    exact absurd h.1 (by decide)

theorem parse_usize_natToDigits {n : Nat} (h : n < usizeSucc) :
    parse_usize (natToDigits n) = some n := by
  rw [parse_usize]
  simp only [stripPlus_of_all_digit (natToDigits_all_digit n)]
  rw [if_pos, decVal_natToDigits]
  refine ⟨natToDigits_ne_nil n, natToDigits_all_digit n, ?_⟩
  rw [decVal_natToDigits]
  exact h

theorem slash_not_mem_natToDigits (n : Nat) : '/' ∉ natToDigits n := by
  intro hmem
  have h2 := natToDigits_all_digit n
  rw [List.all_eq_true] at h2
  exact absurd (h2 _ hmem) (by decide)

theorem splitCh_ne_nil (s : List Char) : splitCh s ≠ [] := by
  match s with
  | [] => simp [splitCh]
  | c :: rest =>
    rw [splitCh]
    split
    · simp
    · split <;> simp

theorem splitCh_no_slash {s : List Char} (h : '/' ∉ s) : splitCh s = [s] := by
  induction s with
  | nil => rfl
  | cons c rest ih =>
    rw [List.mem_cons, not_or] at h
    rw [splitCh, if_neg (fun hc => h.1 hc.symm), ih h.2]

theorem splitCh_slash_append {a : List Char} (b : List Char) (h : '/' ∉ a) :
    splitCh (a ++ '/' :: b) = a :: splitCh b := by
  induction a with
  | nil => simp [splitCh]
  | cons c rest ih =>
    rw [List.mem_cons, not_or] at h
    rw [List.cons_append, splitCh, if_neg (fun hc => h.1 hc.symm), ih h.2]

theorem findIdx_slash_append {a : List Char} (b : List Char) (h : '/' ∉ a) :
    List.findIdx (fun c => c == '/') (a ++ '/' :: b) = a.length := by
  induction a with
  | nil => simp [List.findIdx_cons]
  | cons c rest ih =>
    rw [List.mem_cons, not_or] at h
    have hc : (c == '/') = false := by
      rw [beq_eq_false_iff_ne]
      exact fun hc2 => h.1 hc2.symm
    simp only [List.cons_append, List.findIdx_cons, hc, cond_false, ih h.2,
      List.length_cons]

theorem slashScan_skip {a : List Char} (rest : List Char) (i sl : Nat)
    (hsl : sl ≠ 2) (h : '/' ∉ a) :
    slashScan (a ++ rest) i sl = slashScan rest (i + a.length) sl := by
  induction a generalizing i with
  | nil => simp
  | cons c tail ih =>
    rw [List.mem_cons, not_or] at h
    have hc : ¬ c = '/' := fun hc2 => h.1 hc2.symm
    rw [List.cons_append, slashScan]
    simp only [if_neg hc, if_neg hsl]
    rw [ih _ h.2]
    have hlen : i + 1 + tail.length = i + (c :: tail).length := by
      simp only [List.length_cons]
      omega
    rw [hlen]

theorem slashScan_slash_zero (rest : List Char) (i : Nat) :
    slashScan ('/' :: rest) i 0 = slashScan rest (i + 1) 1 := rfl

theorem slashScan_slash_one (rest : List Char) (i : Nat) :
    slashScan ('/' :: rest) i 1 = i := rfl

theorem slashScan_second_slash {a b : List Char} (c : List Char)
    (ha : '/' ∉ a) (hb : '/' ∉ b) :
    slashScan (a ++ '/' :: (b ++ '/' :: c)) 0 0 = a.length + 1 + b.length := by
  rw [slashScan_skip _ 0 0 (by omega) ha, Nat.zero_add, slashScan_slash_zero,
    slashScan_skip _ _ 1 (by omega) hb, slashScan_slash_one]

theorem from_str_no_slash_ok {s : List Char} {n : Nat} (h : '/' ∉ s)
    (hp : parse_usize s = some n) : Polygon.from_str s = Except.ok ⟨n, 1⟩ := by
  rw [Polygon.from_str, splitCh_no_slash h]
  simp only [hp]

theorem from_str_no_slash_err {s : List Char} (h : '/' ∉ s)
    (hp : parse_usize s = none) : Polygon.from_str s = Except.error 0 := by
  rw [Polygon.from_str, splitCh_no_slash h]
  simp only [hp]

theorem from_str_one_slash_ok {a b : List Char} {n k : Nat}
    (ha : '/' ∉ a) (hb : '/' ∉ b)
    (hn : parse_usize a = some n) (hk : parse_usize b = some k) :
    Polygon.from_str (a ++ '/' :: b) = Except.ok ⟨n, k⟩ := by
  rw [Polygon.from_str, splitCh_slash_append _ ha, splitCh_no_slash hb]
  simp only [hn, hk]

theorem from_str_one_slash_err_right {a b : List Char} {n : Nat}
    (ha : '/' ∉ a) (hb : '/' ∉ b)
    (hn : parse_usize a = some n) (hk : parse_usize b = none) :
    Polygon.from_str (a ++ '/' :: b) = Except.error (a.length + 1) := by
  rw [Polygon.from_str, splitCh_slash_append _ ha, splitCh_no_slash hb]
  simp only [hn, hk, findIdx_slash_append b ha]

theorem from_str_one_slash_err_left {a b : List Char}
    (ha : '/' ∉ a) (hb : '/' ∉ b) (hn : parse_usize a = none) :
    Polygon.from_str (a ++ '/' :: b) = Except.error 0 := by
  rw [Polygon.from_str, splitCh_slash_append _ ha, splitCh_no_slash hb]
  simp only [hn]

theorem from_str_two_slashes {a b : List Char} (c : List Char)
    (ha : '/' ∉ a) (hb : '/' ∉ b) :
    Polygon.from_str (a ++ '/' :: (b ++ '/' :: c)) =
      Except.error (a.length + 1 + b.length) := by
  obtain ⟨g, gs, hg⟩ := List.exists_cons_of_ne_nil (splitCh_ne_nil c)
  rw [Polygon.from_str, splitCh_slash_append _ ha, splitCh_slash_append _ hb, hg]
  exact congrArg Except.error (slashScan_second_slash c ha hb)

theorem exists_first_slash {s : List Char} (h : '/' ∈ s) :
    ∃ a b, s = a ++ '/' :: b ∧ '/' ∉ a := by
  induction s with
  | nil => cases h
  | cons c rest ih =>
    by_cases hc : c = '/'
    · exact ⟨[], rest, by rw [hc]; rfl, by simp⟩
    · rcases List.mem_cons.mp h with h1 | h2
      · exact absurd h1.symm hc
      · obtain ⟨a, b, hab, hna⟩ := ih h2
        refine ⟨c :: a, b, by rw [hab]; rfl, ?_⟩
        rw [List.mem_cons, not_or]
        exact ⟨fun hh => hc hh.symm, hna⟩

theorem slash_decomposition (s : List Char) :
    ('/' ∉ s) ∨
    (∃ a b, s = a ++ '/' :: b ∧ '/' ∉ a ∧ '/' ∉ b) ∨
    (∃ a b c, s = a ++ '/' :: (b ++ '/' :: c) ∧ '/' ∉ a ∧ '/' ∉ b) := by
  by_cases h : '/' ∈ s
  · obtain ⟨a, t, hat, hna⟩ := exists_first_slash h
    by_cases h2 : '/' ∈ t
    · obtain ⟨b, c, hbc, hnb⟩ := exists_first_slash h2
      exact Or.inr (Or.inr ⟨a, b, c, by rw [hat, hbc], hna, hnb⟩)
    · exact Or.inr (Or.inl ⟨a, t, hat, hna, h2⟩)
  · exact Or.inl h

example : Polygon.from_str ['5'] = Except.ok ⟨5, 1⟩ := rfl
example : Polygon.from_str ['7', '/', '2'] = Except.ok ⟨7, 2⟩ := rfl
example : Polygon.from_str ['5', '/', '/'] = Except.error 2 := rfl
example : Polygon.from_str ['5', '/', 'x'] = Except.error 2 := rfl
example : Polygon.from_str ['x'] = Except.error 0 := rfl
example : Polygon.from_str [] = Except.error 0 := rfl
example : Polygon.from_str ['5', '/'] = Except.error 2 := rfl
example : Polygon.from_str ['+', '5'] = Except.ok ⟨5, 1⟩ := rfl
example : Polygon.from_str ['7', '/', '+', '2'] = Except.ok ⟨7, 2⟩ := rfl

/-- C1: for every input string containing two or more '/' characters
(written a ++ '/' :: (b ++ '/' :: c) with slash-free a and b), parsing
returns an error whose position is the scan index at which the second
slash is reached, i.e. the index a.length + 1 + b.length of the second
'/'; in particular parsing "5//" gives Err 2. -/
theorem c1_second_slash_error_position :
    (∀ a b c : List Char, '/' ∉ a → '/' ∉ b →
      Polygon.from_str (a ++ '/' :: (b ++ '/' :: c)) =
        Except.error (a.length + 1 + b.length)) ∧
    Polygon.from_str ['5', '/', '/'] = Except.error 2 := by
  refine ⟨?_, rfl⟩
  intro a b c ha hb
  exact from_str_two_slashes c ha hb

/-- Witness for C1 at the concrete input "1/2/3". -/
theorem c1_second_slash_error_position_witness :
    Polygon.from_str ['1', '/', '2', '/', '3'] = Except.error 3 :=
  c1_second_slash_error_position.1 ['1'] ['2'] ['3'] (by decide) (by decide)

/-- C3: for every input with exactly one '/' (written a ++ '/' :: b with
slash-free a and b): if the left section fails to parse the result is
Err 0; if the left parses as n and the right fails, the result is
Err (i + 1) with i = a.length the index of the '/'; if both parse the
result is Ok {n, k}. -/
theorem c3_one_slash_cases (a b : List Char) (ha : '/' ∉ a) (hb : '/' ∉ b) :
    (parse_usize a = none →
      Polygon.from_str (a ++ '/' :: b) = Except.error 0) ∧
    (∀ n, parse_usize a = some n → parse_usize b = none →
      Polygon.from_str (a ++ '/' :: b) = Except.error (a.length + 1)) ∧
    (∀ n k, parse_usize a = some n → parse_usize b = some k →
      Polygon.from_str (a ++ '/' :: b) = Except.ok ⟨n, k⟩) := by
  refine ⟨fun hn => from_str_one_slash_err_left ha hb hn,
    fun n hn hk => from_str_one_slash_err_right ha hb hn hk,
    fun n k hn hk => from_str_one_slash_ok ha hb hn hk⟩

/-- Witness for C3 at the concrete input "5/x" (error position 2). -/
theorem c3_one_slash_cases_witness :
    Polygon.from_str ['5', '/', 'x'] = Except.error 2 :=
  (c3_one_slash_cases ['5'] ['x'] (by decide) (by decide)).2.1 5 rfl rfl

/-- C4: for every input string with no '/': if the whole string parses as
an unsigned integer n the result is Ok {n, k := 1}; on any parse failure
(empty, non-digit, overflow) the result is Err 0 regardless of where the
bad character sits. -/
theorem c4_no_slash_cases (s : List Char) (h : '/' ∉ s) :
    (∀ n, parse_usize s = some n →
      Polygon.from_str s = Except.ok ⟨n, 1⟩) ∧
    (parse_usize s = none → Polygon.from_str s = Except.error 0) :=
  ⟨fun _ hp => from_str_no_slash_ok h hp,
   fun hp => from_str_no_slash_err h hp⟩

/-- Witness for C4 at the concrete input "42". -/
theorem c4_no_slash_cases_witness :
    Polygon.from_str ['4', '2'] = Except.ok ⟨42, 1⟩ :=
  (c4_no_slash_cases ['4', '2'] (by decide)).1 42 rfl

/-- C9: the parser accepts inputs outside the digits-only grammar because
Rust's unsigned-integer parser accepts a leading '+': "+5" parses to
{n := 5, k := 1} and "7/+2" parses to {n := 7, k := 2}. -/
theorem c9_plus_sign_accepted :
    Polygon.from_str ['+', '5'] = Except.ok ⟨5, 1⟩ ∧
    Polygon.from_str ['7', '/', '+', '2'] = Except.ok ⟨7, 2⟩ :=
  ⟨rfl, rfl⟩

/-- C2: rendering then parsing round-trips for every valid spec (n and k
in usize range): parsing the canonical rendering of {n, k} yields
Ok {n, k} — for k = 1 the divisor is omitted and re-parsing still yields
k = 1 — and hence re-rendering the parse result reproduces the rendering. -/
theorem c2_round_trip (n k : Nat) (hn : n < usizeSucc) (hk : k < usizeSucc) :
    Polygon.from_str (Polygon.to_string ⟨n, k⟩) = Except.ok ⟨n, k⟩ ∧
    (Polygon.from_str (Polygon.to_string ⟨n, k⟩)).map Polygon.to_string =
      Except.ok (Polygon.to_string ⟨n, k⟩) := by
  have hmain : Polygon.from_str (Polygon.to_string ⟨n, k⟩) =
      Except.ok ⟨n, k⟩ := by
    by_cases hk1 : k = 1
    · subst hk1
      rw [Polygon.to_string, if_pos rfl]
      exact from_str_no_slash_ok (slash_not_mem_natToDigits n)
        (parse_usize_natToDigits hn)
    · rw [Polygon.to_string, if_neg hk1]
      exact from_str_one_slash_ok (slash_not_mem_natToDigits n)
        (slash_not_mem_natToDigits k) (parse_usize_natToDigits hn)
        (parse_usize_natToDigits hk)
  refine ⟨hmain, ?_⟩
  rw [hmain]
  rfl

/-- Witness for C2 at the concrete spec {n := 7, k := 2}. -/
theorem c2_round_trip_witness :
    Polygon.from_str (Polygon.to_string ⟨7, 2⟩) = Except.ok ⟨7, 2⟩ :=
  (c2_round_trip 7 2 (by decide) (by decide)).1

/-- C10: every parse error position is at most the character length of the
input, and the bound is attained: parsing "5/" gives Err 2, one past the
last character. -/
theorem c10_error_position_le_length :
    (∀ (s : List Char) (i : Nat),
      Polygon.from_str s = Except.error i → i ≤ s.length) ∧
    Polygon.from_str ['5', '/'] = Except.error 2 := by
  refine ⟨?_, rfl⟩
  intro s i herr
  rcases slash_decomposition s with h | ⟨a, b, hab, ha, hb⟩ |
    ⟨a, b, c, habc, ha, hb⟩
  · cases hp : parse_usize s with
    | none =>
      rw [from_str_no_slash_err h hp] at herr
      injection herr with h0
      omega
    | some n =>
      rw [from_str_no_slash_ok h hp] at herr
      exact Except.noConfusion herr
  · subst hab
    cases hpa : parse_usize a with
    | none =>
      rw [from_str_one_slash_err_left ha hb hpa] at herr
      injection herr with h0
      omega
    | some n =>
      cases hpb : parse_usize b with
      | none =>
        rw [from_str_one_slash_err_right ha hb hpa hpb] at herr
        injection herr with h0
        simp only [List.length_append, List.length_cons]
        omega
      | some k =>
        rw [from_str_one_slash_ok ha hb hpa hpb] at herr
        exact Except.noConfusion herr
  · subst habc
    rw [from_str_two_slashes c ha hb] at herr
    injection herr with h0
    simp only [List.length_append, List.length_cons]
    omega

/-- Witness for C10 at the concrete input "5/" of length 2. -/
theorem c10_error_position_le_length_witness :
    (2 : Nat) ≤ (['5', '/'] : List Char).length :=
  c10_error_position_le_length.1 ['5', '/'] 2 rfl

theorem shapeLoop_fst (angle lineAngle : Vec2) (s : ℝ) (m : Nat) (prev : Vec2) :
    (shapeLoop angle lineAngle s m prev).1 =
      (List.range m).map (fun i => ((angle.rotate)^[i] prev).scaleBy s) := by
  induction m generalizing prev with
  | zero => rfl
  | succ m ih =>
    show prev.scaleBy s ::
      (shapeLoop angle lineAngle s m (angle.rotate prev)).1 = _
    rw [ih]
    simp only [List.range_succ_eq_map, List.map_cons, List.map_map,
      Function.iterate_zero_apply, Function.comp_def, Nat.succ_eq_add_one,
      Function.iterate_succ_apply]

theorem shapeLoop_snd (angle lineAngle : Vec2) (s : ℝ) (m : Nat) (prev : Vec2) :
    (shapeLoop angle lineAngle s m prev).2 =
      (List.range m).map (fun i =>
        (((angle.rotate)^[i] prev).scaleBy s,
         (lineAngle.rotate ((angle.rotate)^[i] prev)).scaleBy s)) := by
  induction m generalizing prev with
  | zero => rfl
  | succ m ih =>
    show (prev.scaleBy s, (lineAngle.rotate prev).scaleBy s) ::
      (shapeLoop angle lineAngle s m (angle.rotate prev)).2 = _
    rw [ih]
    simp only [List.range_succ_eq_map, List.map_cons, List.map_map,
      Function.iterate_zero_apply, Function.comp_def, Nat.succ_eq_add_one,
      Function.iterate_succ_apply]

theorem create_shape_vertices (p : Polygon) (s : ℝ) :
    (create_shape p s).vertices =
      (List.range p.n).map (fun i =>
        (((Vec2.from_angle (2 * Real.pi / (p.n : ℝ))).rotate)^[i]
          ⟨1, 0⟩).scaleBy s) := by
  simp only [create_shape]
  exact shapeLoop_fst _ _ _ _ _

theorem create_shape_edges (p : Polygon) (s : ℝ) :
    (create_shape p s).edges =
      (List.range p.n).map (fun i =>
        ((((Vec2.from_angle (2 * Real.pi / (p.n : ℝ))).rotate)^[i]
            ⟨1, 0⟩).scaleBy s,
         ((Vec2.from_angle (2 * Real.pi * (p.k : ℝ) / (p.n : ℝ))).rotate
            (((Vec2.from_angle (2 * Real.pi / (p.n : ℝ))).rotate)^[i]
              ⟨1, 0⟩)).scaleBy s)) := by
  simp only [create_shape]
  exact shapeLoop_snd _ _ _ _ _

theorem from_angle_rotate_rotate (α β : ℝ) (v : Vec2) :
    (Vec2.from_angle α).rotate ((Vec2.from_angle β).rotate v) =
      (Vec2.from_angle (α + β)).rotate v := by
  ext <;>
    simp [Vec2.rotate, Vec2.from_angle, Real.cos_add, Real.sin_add] <;>
    ring_nf

theorem from_angle_iterate (θ : ℝ) (m : Nat) (v : Vec2) :
    ((Vec2.from_angle θ).rotate)^[m] v =
      (Vec2.from_angle ((m : ℝ) * θ)).rotate v := by
  induction m with
  | zero =>
    ext <;> simp [Vec2.rotate, Vec2.from_angle]
  | succ m ih =>
    rw [Function.iterate_succ_apply', ih, from_angle_rotate_rotate]
    congr 1
    push_cast
    ring_nf

/-- C5: for every spec and every scale, the generated shape has exactly
spec.n vertices and spec.n edges; in particular for n = 0 both sequences
are empty. -/
theorem c5_cardinality (p : Polygon) (s : ℝ) :
    (create_shape p s).vertices.length = p.n ∧
    (create_shape p s).edges.length = p.n ∧
    (p.n = 0 → (create_shape p s).vertices = [] ∧
      (create_shape p s).edges = []) := by
  refine ⟨?_, ?_, fun h0 => ⟨?_, ?_⟩⟩
  · rw [create_shape_vertices]
    simp
  · rw [create_shape_edges]
    simp
  · rw [create_shape_vertices, h0]
    simp
  · rw [create_shape_edges, h0]
    simp

/-- Witness for C5 at the degenerate spec {n := 0, k := 3}. -/
theorem c5_cardinality_witness :
    (create_shape ⟨0, 3⟩ 2).vertices = [] ∧
    (create_shape ⟨0, 3⟩ 2).edges = [] :=
  (c5_cardinality ⟨0, 3⟩ 2).2.2 rfl

/-- C6: for n >= 1, every scale and every i < n, vertex i is the i-fold
rotation of (1, 0) by 2π/n, scaled; edge i runs from that vertex to the
same unit vector rotated once more by the connector angle 2πk/n, scaled;
and that connector endpoint is the point k vertex-steps ahead on the
regular n-gon (the (i+k)-fold rotation of (1, 0)). -/
theorem c6_vertex_edge_star (p : Polygon) (s : ℝ) (i : Nat)
    (_hn : 1 ≤ p.n) (hi : i < p.n) :
    (create_shape p s).vertices[i]? =
      some ((((Vec2.from_angle (2 * Real.pi / (p.n : ℝ))).rotate)^[i]
        ⟨1, 0⟩).scaleBy s) ∧
    (create_shape p s).edges[i]? =
      some (((((Vec2.from_angle (2 * Real.pi / (p.n : ℝ))).rotate)^[i]
          ⟨1, 0⟩).scaleBy s,
        ((Vec2.from_angle (2 * Real.pi * (p.k : ℝ) / (p.n : ℝ))).rotate
          ((((Vec2.from_angle (2 * Real.pi / (p.n : ℝ))).rotate)^[i]
            ⟨1, 0⟩))).scaleBy s)) ∧
    (Vec2.from_angle (2 * Real.pi * (p.k : ℝ) / (p.n : ℝ))).rotate
        ((((Vec2.from_angle (2 * Real.pi / (p.n : ℝ))).rotate)^[i] ⟨1, 0⟩)) =
      ((Vec2.from_angle (2 * Real.pi / (p.n : ℝ))).rotate)^[i + p.k]
        ⟨1, 0⟩ := by
  refine ⟨?_, ?_, ?_⟩
  · rw [create_shape_vertices, List.getElem?_map, List.getElem?_range hi]
    rfl
  · rw [create_shape_edges, List.getElem?_map, List.getElem?_range hi]
    rfl
  · rw [from_angle_iterate, from_angle_iterate, from_angle_rotate_rotate]
    congr 1
    push_cast
    ring_nf

/-- Witness for C6 at the spec {n := 1, k := 2}, scale 5, index 0. -/
theorem c6_vertex_edge_star_witness :
    (create_shape ⟨1, 2⟩ 5).vertices[0]? =
      some ((((Vec2.from_angle
        (2 * Real.pi / ((Polygon.mk 1 2).n : ℝ))).rotate)^[0]
          ⟨1, 0⟩).scaleBy 5) :=
  (c6_vertex_edge_star ⟨1, 2⟩ 5 0 (by decide) (by decide)).1

/-- C7: every coordinate produced at scale s equals the corresponding
coordinate produced at scale 1 multiplied by s, for both the vertex list
and the edge list. -/
theorem c7_scale_linearity (p : Polygon) (s : ℝ) :
    (create_shape p s).vertices =
      (create_shape p 1).vertices.map (fun v => v.scaleBy s) ∧
    (create_shape p s).edges =
      (create_shape p 1).edges.map
        (fun e => (e.1.scaleBy s, e.2.scaleBy s)) := by
  constructor
  · rw [create_shape_vertices, create_shape_vertices, List.map_map]
    congr 1
    funext i
    ext <;> simp [Vec2.scaleBy]
  · rw [create_shape_edges, create_shape_edges, List.map_map]
    congr 1
    funext i
    simp [Vec2.scaleBy]

/-- C8: a tick whose normalised scroll deltas sum to exactly 0 leaves the
stored scale unchanged and emits no Redraw; a nonzero sum multiplies the
scale by 1.1 raised to the sum and emits a Redraw. -/
theorem c8_zoom_noop_and_exponential (events : List Wheel) (oldScale : ℝ) :
    ((events.map scrollOf).sum = 0 →
      scale events oldScale = (oldScale, false)) ∧
    ((events.map scrollOf).sum ≠ 0 →
      scale events oldScale =
        (oldScale * (1.1 : ℝ) ^ (events.map scrollOf).sum, true)) := by
  constructor
  · intro h
    rw [scale, if_neg]
    intro hne
    exact hne h
  · intro h
    rw [scale, if_pos h]

/-- Witness for C8 at an empty tick: the scale is untouched and no Redraw
is emitted. -/
theorem c8_zoom_noop_and_exponential_witness :
    scale [] 5 = (5, false) :=
  (c8_zoom_noop_and_exponential [] 5).1 (by simp)
